import Mathlib

/-!
Verification of the campus-connect landing page core (src/src/App.tsx):
the pure `simulateTypewriter` helper, the `Typewriter` tick/hold state
machine, and the intro-phase sequencer of `CampusLanding`.

Strings are modelled by Lean `String` (for the engine, where only
`length`, `slice`, i.e. `take`, are used) or `List Char` (for the pure
helper, where prefix structure matters).  JavaScript numbers holding the
visible length are modelled by `Int` (they are only ever compared,
incremented and decremented), the word index by `Nat` (it starts at 0 and
is only incremented), and instants by `Int` counting half-milliseconds
(the shrink delay is `speed * 0.5` ms, which is the integer `speed` in
half-milliseconds).
-/

namespace CampusApp

/-- Pure helper, App.tsx lines 53-56:
`const s = Math.min(Math.max(steps, 0), word.length); return word.slice(0, s);`
with the word as its list of characters. -/
def simulateTypewriter (word : List Char) (steps : Int) : List Char :=
  let s : Int := min (max steps 0) (word.length : Int)
  word.take s.toNat

/-- Modelled from the spec: `clamp(s, 0, len(w))`, the standard clamp of `s`
to the interval `[lo, hi]`. -/
def clamp (x lo hi : Int) : Int := max lo (min x hi)

/-- Modelled from the spec: "the prefix of `w` of length `clamp(s, 0, len(w))`"
(spec section 4.1 / section 8). -/
def slicePrefixSpec (word : List Char) (steps : Int) : List Char :=
  word.take (clamp steps 0 (word.length : Int)).toNat

/-- Typing direction of the `Typewriter` component: `"fwd" | "back"`. -/
inductive Dir
  | fwd
  | back
deriving DecidableEq

/-- State of the `Typewriter` component (App.tsx lines 79-83):
`index`, `sub`, `dir`, `hasTypedOnce`, `firstWordDone`. -/
structure TWState where
  index : Nat
  sub : Int
  dir : Dir
  hasTypedOnce : Bool
  firstWordDone : Bool
deriving DecidableEq

/-- Initial state: `useState(0)`, `useState(0)`, `useState("fwd")`,
`useState(false)`, `useState(false)`. -/
def initTW : TWState := ⟨0, 0, Dir.fwd, false, false⟩

/-- The two lifecycle notifications the engine can emit. -/
inductive Ev
  | firstKeystroke
  | firstWordComplete
deriving DecidableEq

/-- App.tsx line 85: `const current = words[index % words.length];`.
For an empty list the JavaScript lookup yields `undefined`, modelled by
`none` (JS computes `index % 0 = NaN` and `words[NaN] = undefined`). -/
def currentWordOpt (words : List String) (i : Nat) : Option String :=
  words.get? (i % words.length)

/-- Placeholder word used only to make `currentWord` total; never reached
for the non-empty word lists the engine is constructed with. -/
def defaultWord : String := ""

/-- The current word of a constructed (non-empty-list) engine; for a
non-empty `words` this equals the JavaScript lookup (see
`currentWordOpt_eq_some`). -/
def currentWord (words : List String) (i : Nat) : String :=
  (currentWordOpt words i).getD defaultWord

/-- Length of the current word, `current.length`. -/
def wordLen (words : List String) (i : Nat) : Nat :=
  (currentWord words i).length

theorem currentWordOpt_eq_some (words : List String) (i : Nat)
    (hw : 0 < words.length) :
    currentWordOpt words i = some (currentWord words i) := by
  have hlt : i % words.length < words.length := Nat.mod_lt _ hw
  unfold currentWord currentWordOpt
  rw [List.get?_eq_get hlt]
  simp [Option.getD]

/-- The interval callback of `Typewriter` (App.tsx lines 94-112): grow by
one character while `sub < current.length`; at full visibility fire
`onFirstWordComplete` once for word index 0 and turn around; shrink by one
character while `sub > 0`; at zero turn around and advance the index. -/
def tickCore (words : List String) (s : TWState) : TWState × List Ev :=
  match s.dir with
  | Dir.fwd =>
    if s.sub < (wordLen words s.index : Int) then
      ({ s with sub := s.sub + 1 }, [])
    else if !s.firstWordDone && s.index == 0 then
      ({ s with firstWordDone := true, dir := Dir.back }, [Ev.firstWordComplete])
    else
      ({ s with dir := Dir.back }, [])
  | Dir.back =>
    if 0 < s.sub then
      ({ s with sub := s.sub - 1 }, [])
    else
      ({ s with dir := Dir.fwd, index := s.index + 1 }, [])

/-- The first-keystroke effect (App.tsx lines 87-92), re-run after every
state change whose render leaves `sub > 0` with the flag still unset:
`if (!hasTypedOnce && sub > 0) { setHasTypedOnce(true); onFirstKeystroke?.(); }`. -/
def keystrokeEffect (s : TWState) : TWState × List Ev :=
  if !s.hasTypedOnce && 0 < s.sub then
    ({ s with hasTypedOnce := true }, [Ev.firstKeystroke])
  else
    (s, [])

/-- One interval tick followed by the post-render first-keystroke effect. -/
def tick (words : List String) (s : TWState) : TWState × List Ev :=
  let r := tickCore words s
  let k := keystrokeEffect r.1
  (k.1, r.2 ++ k.2)

/-- The hold-timeout handler (App.tsx line 118): `setDir("back")`. -/
def holdFire (s : TWState) : TWState := { s with dir := Dir.back }

/-- A transition of the engine: a periodic interval tick or the firing of
the one-shot hold timeout. -/
inductive TWTrans
  | tick
  | hold
deriving DecidableEq

def applyTrans (words : List String) (s : TWState) : TWTrans → TWState × List Ev
  | TWTrans.tick => tick words s
  | TWTrans.hold => (holdFire s, [])

/-- Run a sequence of transitions, returning the final state. -/
def runTW (words : List String) (s : TWState) : List TWTrans → TWState
  | [] => s
  | t :: ts => runTW words (applyTrans words s t).1 ts

/-- Run a sequence of transitions, returning the emitted events in order. -/
def eventsTW (words : List String) (s : TWState) : List TWTrans → List Ev
  | [] => []
  | t :: ts => (applyTrans words s t).2 ++ eventsTW words (applyTrans words s t).1 ts

/-- The state component of a tick. -/
def stepT (words : List String) (s : TWState) : TWState := (tick words s).1

/-- Iterate the interval tick `n` times. -/
def tickN (words : List String) (n : Nat) (s : TWState) : TWState :=
  (stepT words)^[n] s

/-- The rendered visible text, App.tsx line 125: `current.slice(0, sub)`. -/
def visibleText (words : List String) (s : TWState) : String :=
  (currentWord words s.index).take s.sub.toNat

/-- The word lists used by the page and in the spec scenarios. -/
def words2 : List String := ["feed", "events"]

def words1 : List String := ["feed"]

/-- The observable part of the state for a two-word list: the active word
index read modulo the list length, the visible length, and the direction.
The raw `index` grows without bound (the source never reduces it), so
cycle repetition is stated about this projection. -/
def proj2 (s : TWState) : Nat × Int × Dir :=
  (s.index % 2, s.sub, s.dir)

/-- The tick induced on projections of states whose two one-shot flags are
already spent (as they are after the first word has completed). -/
def ptick2 (p : Nat × Int × Dir) : Nat × Int × Dir :=
  proj2 (stepT words2 ⟨p.1, p.2.1, p.2.2, true, true⟩)

/-!
Timed semantics of the `Typewriter` component.  The interval delay is
`dir === "fwd" ? speed : speed * 0.5` (App.tsx line 113); to keep
`speed * 0.5` exact over the integers all instants and durations below are
measured in HALF-milliseconds: a configuration of `speed` and `hold`
milliseconds yields a grow delay of `2 * speed` and a shrink delay of
`speed` half-milliseconds, and the hold timeout is `2 * hold`
half-milliseconds long.
-/

/-- The interval delay (App.tsx line 113), in half-milliseconds:
`speed` ms while growing, `speed * 0.5` ms while shrinking. -/
def tickDelayHalf (speed : Int) : Dir → Int
  | Dir.fwd => 2 * speed
  | Dir.back => speed

/-- A timed configuration: the component state, the current instant, the
next firing instant of the `useInterval` timer, and the deadline of the
pending hold timeout, if one is scheduled (all in half-milliseconds). -/
structure TimedState where
  tw : TWState
  now : Int
  nextTick : Int
  holdTimer : Option Int
deriving DecidableEq

/-- Which timer fired at a simulation step. -/
inductive TimerKind
  | interval
  | holdTimeout
deriving DecidableEq

/-- Re-evaluation of the hold effect (App.tsx lines 116-121) after a state
change at instant `t`.  Its dependencies are `[dir, sub, current.length,
hold]` and every interval tick or hold firing changes `dir` or `sub`, so
the effect re-runs after every event: the previous timeout (if any) is
cleared by the cleanup, and a new one is scheduled for `hold` ms later
exactly when `dir === "fwd" && sub === current.length`. -/
def scheduleHold (words : List String) (hold : Int) (t : Int) (s : TWState) :
    Option Int :=
  if s.dir = Dir.fwd ∧ s.sub = (wordLen words s.index : Int) then
    some (t + 2 * hold)
  else
    none

/-- Fire the interval at its scheduled instant: run the tick callback and
the post-render effects, then reschedule.  If `dir` changed the
`useInterval` effect clears and recreates the interval with the new delay;
either way the next firing is one (new) delay after `t`. -/
def fireInterval (words : List String) (speed hold : Int) (st : TimedState) :
    TimedState × List Ev × TimerKind :=
  let t := st.nextTick
  let r := tick words st.tw
  (⟨r.1, t, t + tickDelayHalf speed r.1.dir, scheduleHold words hold t r.1⟩,
    r.2, TimerKind.interval)

/-- Fire the pending hold timeout at its deadline `d`: `setDir("back")`
(App.tsx line 118); the direction change restarts the interval with the
shrink delay and the hold effect re-runs (its condition is now false). -/
def fireHold (words : List String) (speed hold : Int) (d : Int)
    (st : TimedState) : TimedState × List Ev × TimerKind :=
  let tw := holdFire st.tw
  (⟨tw, d, d + tickDelayHalf speed tw.dir, scheduleHold words hold d tw⟩,
    [], TimerKind.holdTimeout)

/-- One step of the event loop: the earlier of the pending timers fires
(the interval on a tie; no tie occurs in the runs below). -/
def stepTimed (words : List String) (speed hold : Int) (st : TimedState) :
    TimedState × List Ev × TimerKind :=
  match st.holdTimer with
  | some d =>
    if d < st.nextTick then fireHold words speed hold d st
    else fireInterval words speed hold st
  | none => fireInterval words speed hold st

/-- The mounted component at instant 0: initial state, first interval
firing one grow delay from now, hold effect evaluated once on mount. -/
def mountTimed (words : List String) (speed hold : Int) : TimedState :=
  ⟨initTW, 0, tickDelayHalf speed initTW.dir, scheduleHold words hold 0 initTW⟩

/-- The timed configuration after `n` events. -/
def simT (words : List String) (speed hold : Int) : Nat → TimedState
  | 0 => mountTimed words speed hold
  | n + 1 => (stepTimed words speed hold (simT words speed hold n)).1

/-- The kind of the `(n+1)`-st event. -/
def simKind (words : List String) (speed hold : Int) (n : Nat) : TimerKind :=
  (stepTimed words speed hold (simT words speed hold n)).2.2

/-!
The intro sequencer of `CampusLanding` (App.tsx lines 364-368):
`setTimeout(() => setPhase("dots"), 1200)` and
`setTimeout(() => setPhase("typing"), 2200)`, both scheduled at mount.
Instants here are plain milliseconds (`Int`).
-/

/-- The three display phases `"whatif" | "dots" | "typing"`. -/
inductive Phase
  | whatif
  | dots
  | typing
deriving DecidableEq

/-- The phase visible at instant `t`, given the two timeout delays: each
timeout overwrites the phase at its deadline, and with `d1 < d2` the later
write wins, so the phase is `typing` from `d2` on, `dots` on `[d1, d2)`,
and the initial `whatif` before `d1`. -/
def phaseAt (d1 d2 t : Int) : Phase :=
  if d2 ≤ t then Phase.typing
  else if d1 ≤ t then Phase.dots
  else Phase.whatif

/-- The page's first delay, 1200 ms. -/
def firstDelay : Int := 1200

/-- The page's second delay, 2200 ms. -/
def secondDelay : Int := 2200

/-- Progress order of the phases. -/
def phaseRank : Phase → Nat
  | Phase.whatif => 0
  | Phase.dots => 1
  | Phase.typing => 2

/-!
Construction with an empty word list (claim C8).  On the first render the
component computes `current = words[index % words.length]` (for `[]` this
is `words[NaN]`, i.e. `undefined`) and the returned markup evaluates
`current.slice(0, sub)`, which throws a `TypeError` before any timer
callback has run.  The first render is modelled as a fallible function.
-/

/-- One render of the `Typewriter` body: the visible text, or an error
when the current-word lookup yields `undefined`. -/
def renderTypewriter (words : List String) (s : TWState) :
    Except Unit String :=
  match currentWordOpt words s.index with
  | none => Except.error ()
  | some w => Except.ok (w.take s.sub.toNat)

/-- Mounting the component is its first render, from the initial state. -/
def mountTypewriter (words : List String) : Except Unit String :=
  renderTypewriter words initTW

/-!
Optional lifecycle callbacks (claim C10).  The props `onFirstKeystroke`
and `onFirstWordComplete` are optional, and every invocation in the source
is guarded: `onFirstKeystroke?.()` (line 90), `onFirstWordComplete?.()`
(line 101).  Callbacks are modelled as abstract tokens of an arbitrary type;
a guarded call returns the list of tokens actually invoked and never
fails, mirroring that `undefined?.()` is a no-op, not a `TypeError`.
-/

/-- The guarded call `cb?.()`: invokes the callback when present, does
nothing when the prop was omitted. -/
def guardedCall {α : Type} (cb : Option α) : Except Unit (List α) :=
  Except.ok cb.toList

/-- The first-keystroke effect with its guarded `onFirstKeystroke?.()`. -/
def keystrokeEffectE {α : Type} (cb1 : Option α) (s : TWState) :
    Except Unit (TWState × List α) :=
  if !s.hasTypedOnce && 0 < s.sub then do
    let f ← guardedCall cb1
    Except.ok ({ s with hasTypedOnce := true }, f)
  else
    Except.ok (s, [])

/-- The interval callback with its guarded `onFirstWordComplete?.()`,
followed by the post-render first-keystroke effect. -/
def tickE {α : Type} (words : List String) (cb1 cb2 : Option α)
    (s : TWState) : Except Unit (TWState × List α) :=
  match s.dir with
  | Dir.fwd =>
    if s.sub < (wordLen words s.index : Int) then
      keystrokeEffectE cb1 { s with sub := s.sub + 1 }
    else if !s.firstWordDone && s.index == 0 then do
      let f ← guardedCall cb2
      let r ← keystrokeEffectE cb1 { s with firstWordDone := true, dir := Dir.back }
      Except.ok (r.1, f ++ r.2)
    else
      keystrokeEffectE cb1 { s with dir := Dir.back }
  | Dir.back =>
    if 0 < s.sub then
      keystrokeEffectE cb1 { s with sub := s.sub - 1 }
    else
      keystrokeEffectE cb1 { s with dir := Dir.fwd, index := s.index + 1 }

def applyTransE {α : Type} (words : List String) (cb1 cb2 : Option α)
    (s : TWState) : TWTrans → Except Unit (TWState × List α)
  | TWTrans.tick => tickE words cb1 cb2 s
  | TWTrans.hold => Except.ok (holdFire s, [])

/-- Run a transition sequence under the callback configuration, collecting
the invoked callback tokens. -/
def runE {α : Type} (words : List String) (cb1 cb2 : Option α) :
    List TWTrans → TWState → Except Unit (TWState × List α)
  | [], s => Except.ok (s, [])
  | t :: ts, s => do
    let r ← applyTransE words cb1 cb2 s t
    let rest ← runE words cb1 cb2 ts r.1
    Except.ok (rest.1, r.2 ++ rest.2)

end CampusApp

namespace CampusApp

/-- C1: for every word `w` and integer step count `s`, `simulateTypewriter`
returns the prefix of `w` of length `clamp(s, 0, len(w))` — it agrees with
the spec's clamped slice, is a prefix of `w`, has exactly the clamped
length, and matches the four documented test cases on `"feed"`. -/
theorem simulateTypewriter_clamped_slice (w : List Char) (s : Int) :
    simulateTypewriter w s = slicePrefixSpec w s
  ∧ simulateTypewriter w s <+: w
  ∧ (simulateTypewriter w s).length = (min (max s 0) (w.length : Int)).toNat
  ∧ simulateTypewriter ("feed".toList) 0 = []
  ∧ simulateTypewriter ("feed".toList) 2 = "fe".toList
  ∧ simulateTypewriter ("feed".toList) 4 = "feed".toList
  ∧ simulateTypewriter ("feed".toList) 99 = "feed".toList := by
  refine ⟨?_, ?_, ?_, by decide, by decide, by decide, by decide⟩
  · have h : min (max s 0) (w.length : Int) = clamp s 0 (w.length : Int) := by
      unfold clamp
      omega
    simp only [simulateTypewriter, slicePrefixSpec, h]
  · exact List.take_prefix _ w
  · simp only [simulateTypewriter, List.length_take]
    omega

/-- C2: with `words = ["feed", "events"]` and the initial state
`(index 0, sub 0, fwd)`, four grow ticks reach `(0, 4, fwd)` with visible
text `"feed"`; the fifth tick fires `onFirstWordComplete` and switches to
`(0, 4, back)`; four shrink ticks reach `(0, 0, back)`; and the next tick
advances to `(1, 0, fwd)`. -/
theorem typewriter_full_cycle_trace :
    initTW = ⟨0, 0, Dir.fwd, false, false⟩
  ∧ tickN words2 4 initTW = ⟨0, 4, Dir.fwd, true, false⟩
  ∧ visibleText words2 (tickN words2 4 initTW) = "feed"
  ∧ (tick words2 (tickN words2 4 initTW)).2 = [Ev.firstWordComplete]
  ∧ tickN words2 5 initTW = ⟨0, 4, Dir.back, true, true⟩
  ∧ tickN words2 9 initTW = ⟨0, 0, Dir.back, true, true⟩
  ∧ tickN words2 10 initTW = ⟨1, 0, Dir.fwd, true, true⟩ := by
  decide

/-- C3 (code-bug exhibit): with the page's configuration
`words = ["feed"]`, `speed = 300` ms, `hold = 2000` ms (instants in
half-milliseconds), the word becomes fully visible at the fourth interval
tick (t = 2400, i.e. 1200 ms) and the hold timeout is scheduled for
t = 6400 (3200 ms); but the next event is the fifth interval tick at
t = 3000 (1500 ms), which itself switches the direction to `back` and
whose re-render cancels the pending hold timeout, so the word is held for
only 600 half-ms (300 ms = one grow delay), not the 4000 half-ms
(2000 ms) the `hold` prop promises, and the hold timeout never fires. -/
theorem hold_preempted_by_interval :
    wordLen words1 0 = 4
  ∧ (simT words1 300 2000 4).tw.sub = 4
  ∧ (simT words1 300 2000 4).tw.dir = Dir.fwd
  ∧ (simT words1 300 2000 4).now = 2400
  ∧ (simT words1 300 2000 4).holdTimer = some 6400
  ∧ simKind words1 300 2000 4 = TimerKind.interval
  ∧ (simT words1 300 2000 5).now = 3000
  ∧ (simT words1 300 2000 5).tw.dir = Dir.back
  ∧ (simT words1 300 2000 5).holdTimer = none
  ∧ (List.range 5).map (simKind words1 300 2000)
      = List.replicate 5 TimerKind.interval
  ∧ (simT words1 300 2000 5).now - (simT words1 300 2000 4).now = 600
  ∧ (600 : Int) ≠ 2 * 2000 := by
  decide

/-- C6: with both delays scheduled from t = 0 and
`0 < firstDelay < secondDelay`, the intro phase is `whatif` at t = 0,
`dots` at every instant in `[firstDelay, secondDelay)`, `typing` at and
after `secondDelay`, and it never regresses (its rank is monotone in
time); in particular once `typing` it stays `typing` forever. -/
theorem intro_sequencer_phases (d1 d2 : Int) (h0 : 0 < d1) (h12 : d1 < d2) :
    phaseAt d1 d2 0 = Phase.whatif
  ∧ (∀ t, d1 ≤ t → t < d2 → phaseAt d1 d2 t = Phase.dots)
  ∧ (∀ t, d2 ≤ t → phaseAt d1 d2 t = Phase.typing)
  ∧ (∀ t u, t ≤ u → phaseRank (phaseAt d1 d2 t) ≤ phaseRank (phaseAt d1 d2 u)) := by
  refine ⟨?_, ?_, ?_, ?_⟩
  · unfold phaseAt
    split_ifs <;> first | rfl | omega
  · intro t h1 h2
    unfold phaseAt
    split_ifs <;> first | rfl | omega
  · intro t h2
    unfold phaseAt
    split_ifs <;> first | rfl | omega
  · intro t u htu
    unfold phaseAt
    split_ifs <;> simp only [phaseRank] <;> omega

/-- Witness for C6 at the page's delays 1200 ms and 2200 ms. -/
theorem intro_sequencer_phases_witness :
    phaseAt firstDelay secondDelay 0 = Phase.whatif
  ∧ phaseAt firstDelay secondDelay 1500 = Phase.dots
  ∧ phaseAt firstDelay secondDelay 2200 = Phase.typing :=
  ⟨(intro_sequencer_phases firstDelay secondDelay (by decide) (by decide)).1,
   (intro_sequencer_phases firstDelay secondDelay (by decide) (by decide)).2.1
     1500 (by decide) (by decide),
   (intro_sequencer_phases firstDelay secondDelay (by decide) (by decide)).2.2.1
     2200 (by decide)⟩

/-- C8: mounting the typewriter with an empty word list fails on the very
first render (the `undefined` current word is dereferenced before any
timer callback can run), while every non-empty word list mounts
successfully. -/
theorem empty_words_fail_at_mount :
    mountTypewriter [] = Except.error ()
  ∧ ∀ (w : String) (ws : List String),
      ∃ out, mountTypewriter (w :: ws) = Except.ok out := by
  refine ⟨rfl, ?_⟩
  intro w ws
  refine ⟨w.take 0, ?_⟩
  simp [mountTypewriter, renderTypewriter, currentWordOpt, initTW]

theorem runTW_append (words : List String) (ts ts' : List TWTrans) :
    ∀ s, runTW words s (ts ++ ts') = runTW words (runTW words s ts) ts' := by
  induction ts with
  | nil => intro s; rfl
  | cons t ts ih => intro s; simp only [List.cons_append, runTW]; exact ih _

theorem hasTypedOnce_step_mono (words : List String) (s : TWState) (t : TWTrans)
    (h : s.hasTypedOnce = true) :
    ((applyTrans words s t).1).hasTypedOnce = true := by
  rcases s with ⟨i, sub, dir, ht, fd⟩
  cases t
  · cases dir <;>
      simp_all [applyTrans, tick, tickCore, keystrokeEffect] <;>
      split_ifs <;> simp_all
  · simp_all [applyTrans, holdFire]

theorem firstWordDone_step_mono (words : List String) (s : TWState) (t : TWTrans)
    (h : s.firstWordDone = true) :
    ((applyTrans words s t).1).firstWordDone = true := by
  rcases s with ⟨i, sub, dir, ht, fd⟩
  cases t
  · cases dir <;>
      simp_all [applyTrans, tick, tickCore, keystrokeEffect] <;>
      split_ifs <;> simp_all
  · simp_all [applyTrans, holdFire]

theorem keystroke_step_count (words : List String) (s : TWState) (t : TWTrans) :
    ((applyTrans words s t).2).count Ev.firstKeystroke
        + (if s.hasTypedOnce then 1 else 0)
      = if ((applyTrans words s t).1).hasTypedOnce then 1 else 0 := by
  rcases s with ⟨i, sub, dir, ht, fd⟩
  cases t
  · cases dir <;> cases ht <;>
      simp_all [applyTrans, tick, tickCore, keystrokeEffect] <;>
      split_ifs <;> simp_all
  · simp [applyTrans, holdFire]

theorem wordComplete_step_count (words : List String) (s : TWState) (t : TWTrans) :
    ((applyTrans words s t).2).count Ev.firstWordComplete
        + (if s.firstWordDone then 1 else 0)
      = if ((applyTrans words s t).1).firstWordDone then 1 else 0 := by
  rcases s with ⟨i, sub, dir, ht, fd⟩
  cases t
  · cases dir <;> cases fd <;>
      simp_all [applyTrans, tick, tickCore, keystrokeEffect] <;>
      split_ifs <;> simp_all
  · simp [applyTrans, holdFire]

theorem keystroke_run_count (words : List String) (ts : List TWTrans) :
    ∀ s, (eventsTW words s ts).count Ev.firstKeystroke
        + (if s.hasTypedOnce then 1 else 0)
      = if (runTW words s ts).hasTypedOnce then 1 else 0 := by
  induction ts with
  | nil => intro s; simp [eventsTW, runTW]
  | cons t ts ih =>
    intro s
    simp only [eventsTW, runTW, List.count_append]
    have h1 := keystroke_step_count words s t
    have h2 := ih (applyTrans words s t).1
    omega

theorem wordComplete_run_count (words : List String) (ts : List TWTrans) :
    ∀ s, (eventsTW words s ts).count Ev.firstWordComplete
        + (if s.firstWordDone then 1 else 0)
      = if (runTW words s ts).firstWordDone then 1 else 0 := by
  induction ts with
  | nil => intro s; simp [eventsTW, runTW]
  | cons t ts ih =>
    intro s
    simp only [eventsTW, runTW, List.count_append]
    have h1 := wordComplete_step_count words s t
    have h2 := ih (applyTrans words s t).1
    omega

theorem hasTypedOnce_run_mono (words : List String) (ts : List TWTrans) :
    ∀ s, s.hasTypedOnce = true → (runTW words s ts).hasTypedOnce = true := by
  induction ts with
  | nil => intro s h; exact h
  | cons t ts ih =>
    intro s h
    exact ih _ (hasTypedOnce_step_mono words s t h)

theorem firstWordDone_run_mono (words : List String) (ts : List TWTrans) :
    ∀ s, s.firstWordDone = true → (runTW words s ts).firstWordDone = true := by
  induction ts with
  | nil => intro s h; exact h
  | cons t ts ih =>
    intro s h
    exact ih _ (firstWordDone_step_mono words s t h)

theorem keystroke_mem_iff (words : List String) (s : TWState) :
    Ev.firstKeystroke ∈ (tick words s).2 ↔
      s.hasTypedOnce = false ∧ 0 < ((tick words s).1).sub := by
  rcases s with ⟨i, sub, dir, ht, fd⟩
  cases dir <;> cases ht <;>
    simp_all [tick, tickCore, keystrokeEffect] <;>
    split_ifs <;> simp_all

theorem wordComplete_mem_iff (words : List String) (s : TWState) (t : TWTrans) :
    Ev.firstWordComplete ∈ (applyTrans words s t).2 ↔
      t = TWTrans.tick ∧ s.index = 0 ∧ s.dir = Dir.fwd
        ∧ ¬ s.sub < (wordLen words s.index : Int) ∧ s.firstWordDone = false := by
  rcases s with ⟨i, sub, dir, ht, fd⟩
  cases t
  · cases dir <;> cases fd <;>
      simp_all [applyTrans, tick, tickCore, keystrokeEffect] <;>
      split_ifs <;> simp_all <;> (rintro rfl; omega)
  · simp [applyTrans, holdFire]

/-- C4: the two lifecycle callbacks are one-shot.  Over every transition
sequence from the initial state, the number of `firstKeystroke`
(resp. `firstWordComplete`) emissions equals 1 or 0 according to the
corresponding flag, so each fires at most once and exactly when its flag
flips false to true; the flags never reset; `firstKeystroke` is emitted by
exactly the ticks that leave `sub > 0` with the flag still unset (from any
state and direction), and never by a hold firing; and `firstWordComplete`
is emitted exactly by a tick from an undone state at word index 0 with the
word fully visible. -/
theorem lifecycle_callbacks_one_shot (words : List String) :
    (∀ ts, (eventsTW words initTW ts).count Ev.firstKeystroke
        = if (runTW words initTW ts).hasTypedOnce then 1 else 0)
  ∧ (∀ ts, (eventsTW words initTW ts).count Ev.firstWordComplete
        = if (runTW words initTW ts).firstWordDone then 1 else 0)
  ∧ (∀ ts ts', (runTW words initTW ts).hasTypedOnce = true →
        (runTW words initTW (ts ++ ts')).hasTypedOnce = true)
  ∧ (∀ ts ts', (runTW words initTW ts).firstWordDone = true →
        (runTW words initTW (ts ++ ts')).firstWordDone = true)
  ∧ (∀ s, Ev.firstKeystroke ∈ (tick words s).2 ↔
        s.hasTypedOnce = false ∧ 0 < ((tick words s).1).sub)
  ∧ (∀ s, (applyTrans words s TWTrans.hold).2 = [])
  ∧ (∀ s t, Ev.firstWordComplete ∈ (applyTrans words s t).2 →
        s.index = 0 ∧ s.dir = Dir.fwd
          ∧ ¬ s.sub < (wordLen words s.index : Int) ∧ s.firstWordDone = false)
  ∧ (∀ s, s.index = 0 → s.dir = Dir.fwd → s.sub = (wordLen words 0 : Int) →
        s.firstWordDone = false →
        Ev.firstWordComplete ∈ (tick words s).2) := by
  refine ⟨?_, ?_, ?_, ?_, keystroke_mem_iff words, fun s => rfl, ?_, ?_⟩
  · intro ts
    have h := keystroke_run_count words ts initTW
    simpa [initTW] using h
  · intro ts
    have h := wordComplete_run_count words ts initTW
    simpa [initTW] using h
  · intro ts ts' h
    rw [runTW_append]
    exact hasTypedOnce_run_mono words ts' _ h
  · intro ts ts' h
    rw [runTW_append]
    exact firstWordDone_run_mono words ts' _ h
  · intro s t h
    exact ((wordComplete_mem_iff words s t).1 h).2
  · intro s h0 hdir hsub hfd
    exact (wordComplete_mem_iff words s TWTrans.tick).2
      ⟨rfl, h0, hdir, by rw [h0]; omega, hfd⟩

/-- Witness for C4: the first tick on `["feed", "events"]` sets the
first-keystroke flag and it stays set; and a tick from the fully visible
first word emits `firstWordComplete`. -/
theorem lifecycle_callbacks_one_shot_witness :
    (runTW words2 initTW ([TWTrans.tick] ++ [TWTrans.tick])).hasTypedOnce = true
  ∧ Ev.firstWordComplete ∈ (tick words2 ⟨0, 4, Dir.fwd, true, false⟩).2 :=
  ⟨(lifecycle_callbacks_one_shot words2).2.2.1 [TWTrans.tick] [TWTrans.tick]
      (by decide),
   (lifecycle_callbacks_one_shot words2).2.2.2.2.2.2.2
      ⟨0, 4, Dir.fwd, true, false⟩ rfl rfl (by decide) rfl⟩

theorem bounds_step (words : List String) (s : TWState) (t : TWTrans)
    (h0 : 0 ≤ s.sub) (h1 : s.sub ≤ (wordLen words s.index : Int)) :
    0 ≤ ((applyTrans words s t).1).sub
  ∧ ((applyTrans words s t).1).sub
      ≤ (wordLen words ((applyTrans words s t).1).index : Int) := by
  rcases s with ⟨i, sub, dir, ht, fd⟩
  cases t
  · cases dir <;>
      simp_all [applyTrans, tick, tickCore, keystrokeEffect] <;>
      split_ifs <;> simp_all <;> omega
  · simp_all [applyTrans, holdFire]

/-- C5: in every state reachable from the initial state by interval-tick
and hold transitions, the visible length stays between 0 and the length of
the active word (the word at the current index read modulo the list
length, which is what `wordLen` computes); and every single transition
preserves these bounds from any state satisfying them. -/
theorem visible_length_bounds (words : List String) (hw : 0 < words.length) :
    (∀ ts, 0 ≤ (runTW words initTW ts).sub
        ∧ (runTW words initTW ts).sub
            ≤ (wordLen words (runTW words initTW ts).index : Int))
  ∧ (∀ s t, 0 ≤ s.sub → s.sub ≤ (wordLen words s.index : Int) →
        0 ≤ ((applyTrans words s t).1).sub
      ∧ ((applyTrans words s t).1).sub
          ≤ (wordLen words ((applyTrans words s t).1).index : Int)) := by
  refine ⟨?_, fun s t => bounds_step words s t⟩
  have key : ∀ ts s, 0 ≤ s.sub → s.sub ≤ (wordLen words s.index : Int) →
      0 ≤ (runTW words s ts).sub
    ∧ (runTW words s ts).sub ≤ (wordLen words (runTW words s ts).index : Int) := by
    intro ts
    induction ts with
    | nil => intro s h0 h1; exact ⟨h0, h1⟩
    | cons t ts ih =>
      intro s h0 h1
      have hstep := bounds_step words s t h0 h1
      exact ih _ hstep.1 hstep.2
  intro ts
  exact key ts initTW le_rfl (by simp [initTW, wordLen])

/-- Witness for C5 on the page's word list after one tick. -/
theorem visible_length_bounds_witness :
    0 ≤ (runTW words2 initTW [TWTrans.tick]).sub
  ∧ (runTW words2 initTW [TWTrans.tick]).sub
      ≤ (wordLen words2 (runTW words2 initTW [TWTrans.tick]).index : Int) :=
  (visible_length_bounds words2 (by decide)).1 [TWTrans.tick]

/-- C9: the interval delay is exactly `speed` while growing and exactly
`speed * 0.5` while shrinking (stated in half-milliseconds: `2 * speed`
and `speed`), so shrinking runs at twice the grow cadence; and after every
event of the timed semantics the next interval firing is scheduled exactly
one such delay (for the current direction) after the present instant. -/
theorem shrink_twice_as_fast (speed : Int) :
    tickDelayHalf speed Dir.fwd = 2 * speed
  ∧ tickDelayHalf speed Dir.back = speed
  ∧ 2 * tickDelayHalf speed Dir.back = tickDelayHalf speed Dir.fwd
  ∧ ∀ (words : List String) (hold : Int) (st : TimedState),
      ((stepTimed words speed hold st).1).nextTick
        = ((stepTimed words speed hold st).1).now
          + tickDelayHalf speed ((stepTimed words speed hold st).1).tw.dir := by
  refine ⟨rfl, rfl, rfl, ?_⟩
  intro words hold st
  unfold stepTimed
  rcases st.holdTimer with _ | d
  · rfl
  · by_cases hd : d < st.nextTick <;> simp [hd, fireHold, fireInterval]

theorem currentWord_words2_mod (i : Nat) :
    currentWord words2 (i % 2) = currentWord words2 i := by
  unfold currentWord currentWordOpt
  have h2 : words2.length = 2 := rfl
  rw [h2, Nat.mod_mod_of_dvd i (dvd_refl 2)]

theorem wordLen_words2_mod (i : Nat) :
    wordLen words2 (i % 2) = wordLen words2 i := by
  unfold wordLen
  rw [currentWord_words2_mod]

theorem proj2_stepT (s : TWState) (h : s.firstWordDone = true) :
    proj2 (stepT words2 s) = ptick2 (proj2 s)
  ∧ (stepT words2 s).firstWordDone = true := by
  rcases s with ⟨i, sub, dir, ht, fd⟩
  simp only at h
  subst h
  cases dir <;>
    simp [stepT, tick, tickCore, keystrokeEffect, proj2, ptick2,
      wordLen_words2_mod] <;>
    split_ifs <;> simp_all <;> omega

theorem proj2_tickN (s : TWState) (h : s.firstWordDone = true) (n : Nat) :
    proj2 (tickN words2 n s) = ptick2^[n] (proj2 s)
  ∧ (tickN words2 n s).firstWordDone = true := by
  induction n with
  | zero => exact ⟨rfl, h⟩
  | succ n ih =>
    have hs : tickN words2 (n + 1) s = stepT words2 (tickN words2 n s) := by
      unfold tickN
      rw [Function.iterate_succ_apply']
    have hstep := proj2_stepT (tickN words2 n s) ih.2
    refine ⟨?_, by rw [hs]; exact hstep.2⟩
    rw [hs, hstep.1, ih.1]
    exact (Function.iterate_succ_apply' ptick2 n (proj2 s)).symm

theorem visibleText_proj2 (s s' : TWState) (hp : proj2 s = proj2 s') :
    visibleText words2 s = visibleText words2 s' := by
  have h1 : s.index % 2 = s'.index % 2 := congrArg (fun p => p.1) hp
  have h2 : s.sub = s'.sub := congrArg (fun p => p.2.1) hp
  unfold visibleText
  rw [← currentWord_words2_mod s.index, ← currentWord_words2_mod s'.index,
    h1, h2]

set_option maxRecDepth 100000 in
/-- C7: with the two-word list `["feed", "events"]`, 24 ticks complete one
full cycle (both words grown to full visibility and shrunk back): the
resulting state is again at the first word (index ≡ 0 modulo the list
length) with empty visible text in the grow direction, and from there the
observable trajectory — active word index modulo 2, visible length,
direction, and the rendered text — repeats with period 24 forever, with no
drift and no state leaking between cycles. -/
theorem wraparound_two_words :
    (tickN words2 24 initTW).index % words2.length = 0
  ∧ (tickN words2 24 initTW).sub = 0
  ∧ (tickN words2 24 initTW).dir = Dir.fwd
  ∧ visibleText words2 (tickN words2 24 initTW) = ""
  ∧ (∀ n, proj2 (tickN words2 (n + 24) (tickN words2 24 initTW))
        = proj2 (tickN words2 n (tickN words2 24 initTW)))
  ∧ (∀ n, visibleText words2 (tickN words2 (n + 24) (tickN words2 24 initTW))
        = visibleText words2 (tickN words2 n (tickN words2 24 initTW))) := by
  have hfd : (tickN words2 24 initTW).firstWordDone = true := by decide
  have hper : ∀ n, proj2 (tickN words2 (n + 24) (tickN words2 24 initTW))
      = proj2 (tickN words2 n (tickN words2 24 initTW)) := by
    intro n
    rw [(proj2_tickN _ hfd (n + 24)).1, (proj2_tickN _ hfd n).1,
      Function.iterate_add_apply]
    exact congrArg (ptick2^[n]) (by decide)
  exact ⟨by decide, by decide, by decide, by decide, hper,
    fun n => visibleText_proj2 _ _ (hper n)⟩

theorem keystrokeEffectE_ok {α : Type} (cb1 : Option α) (s : TWState) :
    ∃ f, keystrokeEffectE cb1 s = Except.ok ((keystrokeEffect s).1, f) := by
  unfold keystrokeEffectE keystrokeEffect guardedCall
  split_ifs <;> exact ⟨_, rfl⟩

theorem tickE_ok {α : Type} (words : List String) (cb1 cb2 : Option α)
    (s : TWState) :
    ∃ f, tickE words cb1 cb2 s = Except.ok ((tick words s).1, f) := by
  rcases s with ⟨i, sub, dir, ht, fd⟩
  cases dir <;> cases ht <;> cases fd <;>
    simp only [tickE, tick, tickCore, Bool.not_true, Bool.not_false,
      Bool.false_and, Bool.true_and, if_false, if_true] <;>
    split_ifs <;>
    simp only [keystrokeEffectE, keystrokeEffect, guardedCall,
      Bool.not_true, Bool.not_false, Bool.false_and, Bool.true_and,
      if_false, if_true] <;>
    first
      | (split_ifs <;> exact ⟨_, rfl⟩)
      | exact ⟨_, rfl⟩

theorem runE_ok {α : Type} (words : List String) (cb1 cb2 : Option α)
    (ts : List TWTrans) :
    ∀ s, ∃ f, runE words cb1 cb2 ts s = Except.ok (runTW words s ts, f) := by
  induction ts with
  | nil => intro s; exact ⟨[], rfl⟩
  | cons t ts ih =>
    intro s
    cases t
    · obtain ⟨f1, h1⟩ := tickE_ok words cb1 cb2 s
      obtain ⟨f2, h2⟩ := ih (tick words s).1
      refine ⟨f1 ++ f2, ?_⟩
      show Except.bind (tickE words cb1 cb2 s)
          (fun r => Except.bind (runE words cb1 cb2 ts r.1)
            (fun rest => Except.ok (rest.1, r.2 ++ rest.2)))
        = Except.ok (runTW words (tick words s).1 ts, f1 ++ f2)
      rw [h1]
      show Except.bind (runE words cb1 cb2 ts (tick words s).1)
          (fun rest => Except.ok (rest.1, f1 ++ rest.2))
        = Except.ok (runTW words (tick words s).1 ts, f1 ++ f2)
      rw [h2]
      rfl
    · obtain ⟨f2, h2⟩ := ih (holdFire s)
      refine ⟨f2, ?_⟩
      show Except.bind (runE words cb1 cb2 ts (holdFire s))
          (fun rest => Except.ok (rest.1, ([] : List α) ++ rest.2))
        = Except.ok (runTW words (holdFire s) ts, f2)
      rw [h2]
      rfl

/-- C10: omitting either or both optional lifecycle callbacks is safe.
For every callback configuration, running any transition sequence
succeeds (the guarded `?.()` invocations never fault) and yields exactly
the state trajectory of the callback-free tick function; in particular two
arbitrary configurations produce the same final state and the same visible
text. -/
theorem optional_callbacks_safe (α β : Type) (cb1 cb2 : Option α)
    (db1 db2 : Option β) (words : List String) (ts : List TWTrans) :
    (∃ fired, runE words cb1 cb2 ts initTW
        = Except.ok (runTW words initTW ts, fired))
  ∧ (runE words cb1 cb2 ts initTW).map (fun r => r.1)
      = (runE words db1 db2 ts initTW).map (fun r => r.1)
  ∧ (runE words cb1 cb2 ts initTW).map (fun r => visibleText words r.1)
      = (runE words db1 db2 ts initTW).map (fun r => visibleText words r.1) := by
  obtain ⟨f1, h1⟩ := runE_ok words cb1 cb2 ts initTW
  obtain ⟨f2, h2⟩ := runE_ok words db1 db2 ts initTW
  exact ⟨⟨f1, h1⟩, by rw [h1, h2]; rfl, by rw [h1, h2]; rfl⟩

end CampusApp
